import Mathlib

/-!
Verification development for the EU5 strategy agent repository.

Shallow embedding of the two core components described in the design
specification: the bounded LRU cache (`src/eu5_agent/cache.py`) and the
conversation controller (`src/eu5_agent/agent.py`): history trimming,
complexity classification, tool-call execution and the bounded chat loop.

Modelling conventions:
- Python `OrderedDict` is an association list in recency order
  (head = oldest / least-recently-used, last = most recent).
- Python machine behaviour that raises an exception is modelled with
  `Option` / `Except`: a `none` / `.error` value marks a raised exception.
- `json.loads` on the raw tool-call argument string is external library
  code; a `ToolCall` carries the outcome of that parse as an
  `Except String Json` value (`.error e` models `json.JSONDecodeError`
  with message `e`).  Numeric JSON literals are modelled as integers and
  Python booleans count as integers for `isinstance(x, int)`.
- The LLM endpoint, the knowledge gateway and the search gateway are
  external collaborators, passed in as oracle functions.
- Strings are handled at ASCII precision (`Char.toLower`, `Char.isAlphanum`),
  which is faithful for every string the source manipulates.
-/

namespace EU5

/-! ## Bounded LRU cache — `src/eu5_agent/cache.py`

`LRUCache` holds `maxsize` (a Python `int`, hence `Int`), the ordered
dictionary as an association list, and hit/miss counters. -/

structure LRUCache (α : Type) where
  maxsize : Int
  cache : List (String × α)
  hits : Nat
  misses : Nat

/-- The `LRUCache.__init__` constructor: empty dictionary, zero counters. -/
def LRUCache.init (α : Type) (maxsize : Int) : LRUCache α :=
  ⟨maxsize, [], 0, 0⟩

/-- Association-list lookup, modelling `key in self._cache` / `self._cache[key]`
(keys in an `OrderedDict` are unique, so first match is the match). -/
def lookupKey {α : Type} (k : String) : List (String × α) → Option α
  | [] => none
  | (k0, v) :: rest => if k0 = k then some v else lookupKey k rest

/-- Removal of a key, modelling `self._cache.pop(key)` on a present key. -/
def removeKey {α : Type} (k : String) : List (String × α) → List (String × α)
  | [] => []
  | (k0, v) :: rest => if k0 = k then rest else (k0, v) :: removeKey k rest

/-- `LRUCache.get`: on a hit, move the key to the most-recent end and count a
hit; on a miss, count a miss and leave the entries untouched. -/
def LRUCache.get {α : Type} (c : LRUCache α) (k : String) : Option α × LRUCache α :=
  match lookupKey k c.cache with
  | some v =>
      (some v, { c with cache := removeKey k c.cache ++ [(k, v)], hits := c.hits + 1 })
  | none => (none, { c with misses := c.misses + 1 })

/-- `LRUCache.set`: replace re-inserts the key at the most-recent end; an
insert at capacity first evicts the least-recently-used entry via
`popitem(last=False)`.  `popitem` on an empty dictionary raises `KeyError`,
modelled by the `none` result. -/
def LRUCache.set {α : Type} (c : LRUCache α) (k : String) (v : α) :
    Option (LRUCache α) :=
  if (lookupKey k c.cache).isSome then
    some { c with cache := removeKey k c.cache ++ [(k, v)] }
  else if c.maxsize ≤ (c.cache.length : Int) then
    match c.cache with
    | [] => none
    | _ :: rest => some { c with cache := rest ++ [(k, v)] }
  else
    some { c with cache := c.cache ++ [(k, v)] }

/-- `LRUCache.clear`: drop all entries and reset both counters. -/
def LRUCache.clear {α : Type} (c : LRUCache α) : LRUCache α :=
  { c with cache := [], hits := 0, misses := 0 }

/-- The snapshot returned by `LRUCache.stats`. -/
structure CacheStats where
  size : Nat
  maxsize : Int
  hits : Nat
  misses : Nat

/-- `LRUCache.stats`: point-in-time snapshot of size, capacity and counters. -/
def LRUCache.stats {α : Type} (c : LRUCache α) : CacheStats :=
  ⟨c.cache.length, c.maxsize, c.hits, c.misses⟩

/-- One call against the cache API. -/
inductive CacheOp (α : Type) where
  | set (k : String) (v : α)
  | get (k : String)
  | clear

/-- Run a sequence of cache calls; `none` marks a raised exception
(a `set` whose eviction popped from an empty dictionary). -/
def runOps {α : Type} : LRUCache α → List (CacheOp α) → Option (LRUCache α)
  | c, [] => some c
  | c, CacheOp.set k v :: rest =>
      match c.set k v with
      | some c1 => runOps c1 rest
      | none => none
  | c, CacheOp.get k :: rest => runOps (c.get k).2 rest
  | c, CacheOp.clear :: rest => runOps c.clear rest

/-! ## Complexity classifier — `EU5Agent._is_complex_query`

Everything operates on the lowercased character list of the input
(`user_message.lower()`). -/

/-- The lowercased character sequence of a string, modelling `str.lower()`
at ASCII precision. -/
def lowerChars (s : String) : List Char := s.data.map Char.toLower

/-- Substring test, modelling Python `needle in haystack`. -/
def containsSub (needle : List Char) : List Char → Bool
  | [] => needle.isEmpty
  | c :: rest => needle.isPrefixOf (c :: rest) || containsSub needle rest

/-- The fixed vocabulary `complex_signals` from the source, in source order. -/
def complexSignals : List (List Char) :=
  [("long-term").toList, ("long term").toList, ("mid game").toList,
   ("late game").toList, ("campaign").toList, ("roadmap").toList,
   ("plan").toList, ("trade-off").toList, ("tradeoff").toList,
   ("optimize").toList, ("contingency").toList, ("fallback").toList,
   ("if ").toList, ("risk").toList, ("timeline").toList,
   ("5 year").toList, ("10 year").toList, ("15 year").toList,
   ("30 year").toList]

/-- `sum(1 for s in complex_signals if s in lower)`. -/
def signalCount (lower : List Char) : Nat :=
  (complexSignals.filter (fun s => containsSub s lower)).length

/-- Python regex word character (`\w`) at ASCII precision. -/
def isWordChar (c : Char) : Bool := c.isAlphanum || c == '_'

/-- Word boundary `\b` before a match: start of string or a preceding
non-word character (every alternative starts with a word character). -/
def boundaryBefore : Option Char → Bool
  | none => true
  | some c => !(isWordChar c)

/-- Word boundary `\b` after a match ending in a word character: end of
string or a following non-word character. -/
def boundaryAfter : List Char → Bool
  | [] => true
  | c :: _ => !(isWordChar c)

/-- Attempt to match one fixed word alternative at the current position,
returning the match length. -/
def tryWord (w : List Char) (hay : List Char) : Option Nat :=
  if w.isPrefixOf hay && boundaryAfter (hay.drop w.length) then some w.length
  else none

/-- The `vs\.?` alternative: the greedy optional dot is kept only when the
trailing `\b` still holds (after a dot that requires a following word
character); otherwise the engine backtracks to plain `vs`. -/
def tryVs (hay : List Char) : Option Nat :=
  if ("vs.").toList.isPrefixOf hay &&
      (match hay.drop 3 with
       | c :: _ => isWordChar c
       | [] => false) then
    some 3
  else if ("vs").toList.isPrefixOf hay && boundaryAfter (hay.drop 2) then some 2
  else none

/-- One attempt of `\b(and|while|versus|vs\.?|with)\b` at the current
position, alternatives tried in source order. -/
def matchSepAt (prev : Option Char) (hay : List Char) : Option Nat :=
  if boundaryBefore prev then
    match tryWord (("and").toList) hay with
    | some n => some n
    | none =>
      match tryWord (("while").toList) hay with
      | some n => some n
      | none =>
        match tryWord (("versus").toList) hay with
        | some n => some n
        | none =>
          match tryVs hay with
          | some n => some n
          | none => tryWord (("with").toList) hay
  else none

/-- Non-overlapping left-to-right scan counting the matches of
`re.findall(r"\b(and|while|versus|vs\.?|with)\b", lower)`; `prev` is the
character just before the current position.  The fuel argument makes the
recursion structural; every successful match consumes at least one
character (the shortest alternative has length 2), so fuel equal to the
length of the haystack is never exhausted. -/
def countSepsAux : Nat → Option Char → List Char → Nat
  | 0, _, _ => 0
  | fuel + 1, prev, hay =>
    match hay with
    | [] => 0
    | c :: rest =>
      match matchSepAt prev (c :: rest) with
      | some n =>
          1 + countSepsAux fuel (some ((c :: rest).getD (n - 1) c))
            ((c :: rest).drop n)
      | none => countSepsAux fuel (some c) rest

/-- Count of separator-word matches in the lowercased text. -/
def countSeps (prev : Option Char) (hay : List Char) : Nat :=
  countSepsAux hay.length prev hay

/-- `lower.count(",") + lower.count(";")`. -/
def punctuationSplit (lower : List Char) : Nat :=
  (lower.filter (fun c => c == ',' || c == ';')).length

/-- Word count of `str.split()`: number of maximal non-whitespace runs.
The boolean records whether the scan is inside a word. -/
def countWords : Bool → List Char → Nat
  | _, [] => 0
  | inWord, c :: rest =>
    if c.isWhitespace then countWords false rest
    else (if inWord then 0 else 1) + countWords true rest

/-- `EU5Agent._is_complex_query`: true when at least two signal phrases, or
at least two separator words, or at least two commas/semicolons, or at
least twenty words. -/
def isComplexQuery (user_message : String) : Bool :=
  let lower := lowerChars user_message
  decide (2 ≤ signalCount lower) || decide (2 ≤ countSeps none lower) ||
    decide (2 ≤ punctuationSplit lower) || decide (20 ≤ countWords false lower)

/-! ## Transcript data model — message dictionaries of `agent.py` -/

/-- The `role` field of a chat message. -/
inductive Role where
  | system
  | user
  | assistant
  | tool
deriving DecidableEq

/-- A parsed JSON value, the outcome of `json.loads` (numbers restricted to
integers; Python re-uses `bool` as an `int` subtype, kept separate here). -/
inductive Json where
  | null
  | bool (b : Bool)
  | num (n : Int)
  | str (s : String)
  | arr (elems : List Json)
  | obj (fields : List (String × Json))

/-- One tool call as received from the LLM: `tool_call.id`,
`tool_call.function.name`, and the outcome of `json.loads` on
`tool_call.function.arguments` (`.error e` models `json.JSONDecodeError`). -/
structure ToolCall where
  id : String
  name : String
  arguments : Except String Json

/-- One transcript message.  `tool_calls` is empty when the key is absent;
`tool_call_id` is present only on tool-role messages. -/
structure Message where
  role : Role
  content : Option String
  tool_calls : List ToolCall
  tool_call_id : Option String

/-! ## History trimming — `EU5Agent._trim_messages` -/

/-- Indices (counted from `start`) of the `user`-role messages:
`[i for i, m in enumerate(self.messages) if m.get("role") == "user"]`. -/
def userIndicesFrom (start : Nat) : List Message → List Nat
  | [] => []
  | m :: rest =>
    if m.role = Role.user then start :: userIndicesFrom (start + 1) rest
    else userIndicesFrom (start + 1) rest

/-- The user-message indices of a transcript. -/
def userIndices (msgs : List Message) : List Nat := userIndicesFrom 0 msgs

/-- The cut-point loop of `_trim_messages`: for each candidate user index,
keep the system prompt plus everything from that index onward as soon as
the result fits the cap. -/
def tryCuts (cap : Int) (msgs : List Message) (m0 : Message) :
    List Nat → Option (List Message)
  | [] => none
  | i :: rest =>
    let remaining := m0 :: msgs.drop i
    if (remaining.length : Int) ≤ cap then some remaining
    else tryCuts cap msgs m0 rest

/-- `EU5Agent._trim_messages`, as a function of the history list.  A no-op
under the cap or with at most one turn group; otherwise the first fitting
cut, and as a last resort the system prompt plus the final turn group. -/
def trimMessages (cap : Int) (msgs : List Message) : List Message :=
  if (msgs.length : Int) ≤ cap then msgs
  else
    let ui := userIndices msgs
    if ui.length ≤ 1 then msgs
    else
      match msgs with
      | [] => msgs
      | m0 :: _ =>
        match tryCuts cap msgs m0 (ui.drop 1) with
        | some remaining => remaining
        | none =>
          match ui.getLast? with
          | some last => m0 :: msgs.drop last
          | none => msgs

/-! ## Tool execution — `EU5Agent._execute_tool_call` and the two tools

The knowledge and search gateways are external collaborators
(`EU5Knowledge.get_knowledge`, `search_eu5_wiki`); they enter the model as
oracle functions inside `AgentModel`. -/

/-- The tagged result dictionary returned by the knowledge gateway
(`status` of success / list / error). -/
inductive KnowledgeResult where
  | success (source : String) (content : String)
  | list (content : String)
  | error (err : String)

/-- One search-gateway result row. -/
structure SearchResult where
  title : String
  url : String
  snippet : Option String

/-- The collaborators and configuration of one `EU5Agent` instance:
the knowledge oracle, the search oracle (whose `.error` outcome models a
raised exception), and `config.max_history_messages`. -/
structure AgentModel where
  knowledge : String → Option String → KnowledgeResult
  search : String → Option Int → Except String (List SearchResult)
  maxHist : Int

/-- `EU5Agent._query_knowledge`: format the gateway result. -/
def queryKnowledge (A : AgentModel) (category : String)
    (subcategory : Option String) : String :=
  match A.knowledge category subcategory with
  | KnowledgeResult.success source content =>
      "**Source: Local Knowledge Base (" ++ source ++ ")**\n\n" ++ content
  | KnowledgeResult.list content => content
  | KnowledgeResult.error err => "Error: " ++ err

/-- Numbered formatting of one search result, mirroring the body of the
`for i, result in enumerate(results, 1)` loop (the snippet line is emitted
only when the snippet is present and truthy, i.e. non-empty). -/
def formatSearchResult (i : Nat) (r : SearchResult) : String :=
  toString i ++ ". **" ++ r.title ++ "**\n" ++ "   URL: " ++ r.url ++ "\n" ++
    (match r.snippet with
     | some s => if s = "" then "" else "   " ++ s ++ "\n"
     | none => "") ++ "\n"

/-- Concatenation of the formatted rows, numbering from 1. -/
def formatSearchResults (i : Nat) : List SearchResult → String
  | [] => ""
  | r :: rest => formatSearchResult i r ++ formatSearchResults (i + 1) rest

/-- `EU5Agent._web_search`: delegate to the search gateway, catching any
raised exception as a `Web search error:` string; empty result lists get
the fixed no-results text. -/
def webSearch (A : AgentModel) (query : String) (numResults : Option Int) :
    String :=
  match A.search query numResults with
  | Except.error e => "Web search error: " ++ e
  | Except.ok [] => "No results found for: " ++ query
  | Except.ok (r :: rest) =>
      "**Source: Web Search** (Query: " ++ query ++ ")\n\n" ++
        formatSearchResults 1 (r :: rest)

/-- Dictionary field lookup on a parsed JSON object (`arguments.get(k)` /
`k in arguments`; `json.loads` never produces duplicate keys). -/
def lookupField (k : String) : List (String × Json) → Option Json
  | [] => none
  | (k0, v) :: rest => if k0 = k then some v else lookupField k rest

/-- Python `isinstance(x, int)`; `bool` is a subclass of `int`. -/
def pyIsInt : Json → Bool
  | Json.num _ => true
  | Json.bool _ => true
  | _ => false

/-- The integer value behind `pyIsInt` (Python `True` / `False` behave as
1 / 0 when used as integers). -/
def pyInt : Json → Int
  | Json.num n => n
  | Json.bool b => if b then 1 else 0
  | _ => 0

/-- Field keys all lie in the allowed keyword-parameter names; when this
fails, `f(**arguments)` raises `TypeError`. -/
def keysAllowed (allowed : List String) (fields : List (String × Json)) :
    Bool :=
  fields.all (fun kv => allowed.contains kv.1)

/-- `EU5Agent._execute_tool_call`.  An `.ok` value is the string the
function returns; an `.error` value is an exception that escapes it (the
only such path is the `TypeError` raised by `f(**arguments)` when the
parsed argument object carries an unexpected extra key, which the
per-field validation above it does not reject). -/
def executeToolCall (A : AgentModel) (tc : ToolCall) : Except String String :=
  match tc.arguments with
  | Except.error e =>
      Except.ok ("Error: invalid tool arguments (JSON decode failed: " ++ e ++ ")")
  | Except.ok args =>
    if tc.name = "query_knowledge" then
      match args with
      | Json.obj fields =>
        match lookupField ("category") fields with
        | none =>
            Except.ok ("Error: invalid tool arguments (missing \x27category\x27 for query_knowledge)")
        | some catJ =>
          match catJ with
          | Json.str category =>
            match lookupField ("subcategory") fields with
            | some (Json.str sub) =>
                if keysAllowed [("category"), ("subcategory")] fields then
                  Except.ok (queryKnowledge A category (some sub))
                else
                  Except.error ("TypeError: _query_knowledge() got an unexpected keyword argument")
            | some Json.null =>
                if keysAllowed [("category"), ("subcategory")] fields then
                  Except.ok (queryKnowledge A category none)
                else
                  Except.error ("TypeError: _query_knowledge() got an unexpected keyword argument")
            | none =>
                if keysAllowed [("category"), ("subcategory")] fields then
                  Except.ok (queryKnowledge A category none)
                else
                  Except.error ("TypeError: _query_knowledge() got an unexpected keyword argument")
            | some _ =>
                Except.ok ("Error: invalid tool arguments (\x27subcategory\x27 must be a string if provided)")
          | _ =>
              Except.ok ("Error: invalid tool arguments (\x27category\x27 must be a string)")
      | _ =>
          Except.ok ("Error: invalid tool arguments (missing \x27category\x27 for query_knowledge)")
    else if tc.name = "web_search" then
      match args with
      | Json.obj fields =>
        match lookupField ("query") fields with
        | none =>
            Except.ok ("Error: invalid tool arguments (missing \x27query\x27 for web_search)")
        | some qJ =>
          match qJ with
          | Json.str query =>
            match lookupField ("num_results") fields with
            | none =>
                if keysAllowed [("query"), ("num_results")] fields then
                  Except.ok (webSearch A query (some 3))
                else
                  Except.error ("TypeError: _web_search() got an unexpected keyword argument")
            | some Json.null =>
                if keysAllowed [("query"), ("num_results")] fields then
                  Except.ok (webSearch A query none)
                else
                  Except.error ("TypeError: _web_search() got an unexpected keyword argument")
            | some nrJ =>
                if pyIsInt nrJ then
                  if keysAllowed [("query"), ("num_results")] fields then
                    Except.ok (webSearch A query (some (pyInt nrJ)))
                  else
                    Except.error ("TypeError: _web_search() got an unexpected keyword argument")
                else
                  Except.ok ("Error: invalid tool arguments (\x27num_results\x27 must be an integer if provided)")
          | _ =>
              Except.ok ("Error: invalid tool arguments (\x27query\x27 must be a string)")
      | _ =>
          Except.ok ("Error: invalid tool arguments (missing \x27query\x27 for web_search)")
    else
      Except.ok ("Unknown tool: " ++ tc.name)

/-! ## Turn execution — `EU5Agent.chat` -/

/-- The assistant message of one LLM response
(`response.choices[0].message`). -/
structure AssistantMessage where
  content : Option String
  tool_calls : List ToolCall

/-- The transcript entry for an assistant message
(`assistant_message.model_dump(exclude_unset=True)`). -/
def assistantToMessage (am : AssistantMessage) : Message :=
  ⟨Role.assistant, am.content, am.tool_calls, none⟩

/-- The transcript entry appended for one user input. -/
def userMessage (u : String) : Message := ⟨Role.user, some u, [], none⟩

/-- The transcript entry appended for one tool result. -/
def toolMessage (tc : ToolCall) (result : String) : Message :=
  ⟨Role.tool, some result, [], some tc.id⟩

/-- The text of `EU5Agent._complex_mode_instruction`. -/
def complexModeInstruction : String :=
  "[Complex Query Mode Enabled]\n" ++
    "Treat this as a campaign-level planning question. " ++
    "If critical context is missing, ask up to 3 clarifying questions first. " ++
    "Otherwise respond with: Situation Snapshot, Objectives (Short/Mid/Long), " ++
    "Phased Plan (Immediate/5-year/10+ year), Risk Matrix, Pivot Triggers, " ++
    "and First 3 Actions. Include conservative and aggressive alternatives."

/-- The transient complex-mode system message. -/
def directiveMessage : Message :=
  ⟨Role.system, some complexModeInstruction, [], none⟩

/-- The fixed fallback returned when the iteration budget is exhausted. -/
def fallbackMessage : String :=
  "I\x27ve reached the maximum number of research steps for this query. " ++
    "This usually happens with very complex questions. " ++
    "Try asking a more specific question, or break it into smaller parts."

/-- The outgoing per-call message list: on a complex query the transient
directive is inserted at position 1, immediately after the head of the
transcript (the transcript is never empty at this point — it always holds
at least the current user message). -/
def buildRequest (isC : Bool) (msgs : List Message) : List Message :=
  if isC then
    match msgs with
    | [] => [directiveMessage]
    | m0 :: rest => m0 :: directiveMessage :: rest
  else msgs

/-- Execute a list of tool calls in order, producing the tool-result
transcript entries; an `.error` is an exception escaping the loop body. -/
def execToolCalls (A : AgentModel) : List ToolCall → Except String (List Message)
  | [] => Except.ok []
  | tc :: rest =>
    match executeToolCall A tc with
    | Except.error e => Except.error e
    | Except.ok s =>
      match execToolCalls A rest with
      | Except.error e => Except.error e
      | Except.ok ms => Except.ok (toolMessage tc s :: ms)

/-- Everything `chat` produces: the returned text, the final stored
transcript, and the outgoing message list of every LLM call made. -/
structure ChatOutcome where
  reply : String
  messages : List Message
  requests : List (List Message)

instance : Inhabited ChatOutcome := ⟨⟨"", [], []⟩⟩

/-- The `while iteration < max_iterations` loop of `EU5Agent.chat`): trim,
build the outgoing list, call the LLM, append the assistant message; on
tool calls execute them, append their results and continue; on truthy
content return it; otherwise loop.  Fuel 0 is budget exhaustion: return
the fixed fallback. -/
def chatLoop (A : AgentModel) (llm : List Message → AssistantMessage)
    (isC : Bool) : Nat → List Message → List (List Message) →
    Except String ChatOutcome
  | 0, msgs, reqs => Except.ok ⟨fallbackMessage, msgs, reqs⟩
  | fuel + 1, msgs, reqs =>
    let trimmed := trimMessages A.maxHist msgs
    let request := buildRequest isC trimmed
    let am := llm request
    let appended := trimmed ++ [assistantToMessage am]
    if am.tool_calls.isEmpty then
      match am.content with
      | some c =>
          if c = "" then chatLoop A llm isC fuel appended (reqs ++ [request])
          else Except.ok ⟨c, appended, reqs ++ [request]⟩
      | none => chatLoop A llm isC fuel appended (reqs ++ [request])
    else
      match execToolCalls A am.tool_calls with
      | Except.error e => Except.error e
      | Except.ok toolMsgs =>
          chatLoop A llm isC fuel (appended ++ toolMsgs) (reqs ++ [request])

/-- The number of loop iterations `max_iterations` fixed in `chat`. -/
def maxIterations : Nat := 10

/-- `EU5Agent.chat`: classify the raw input, append it to the transcript,
then run the bounded loop. -/
def chat (A : AgentModel) (llm : List Message → AssistantMessage)
    (msgs : List Message) (user_text : String) : Except String ChatOutcome :=
  let isC := isComplexQuery user_text
  chatLoop A llm isC maxIterations (msgs ++ [userMessage user_text]) []

/-! ## Specification-side definitions and transcript predicates -/

/-- Modelled from the spec wording of the trimming algorithm, for
comparison with `trimMessages`: no-op when the transcript fits the cap or
fewer than two user-delimited turn groups exist; otherwise the candidate
retained transcript for cut `c` is the system message (message 0) plus all
messages from the c-th user-turn-group boundary onward, accepting the
first candidate (iterating from the oldest boundary forward) whose length
fits the cap; and when no candidate fits, the system message plus the last
turn group anyway. -/
def trimSpecification (cap : Int) (msgs : List Message) : List Message :=
  if (msgs.length : Int) ≤ cap ∨ (userIndices msgs).length < 2 then msgs
  else
    match ((userIndices msgs).drop 1).find?
        (fun i => decide (((msgs.take 1 ++ msgs.drop i).length : Int) ≤ cap)) with
    | some i => msgs.take 1 ++ msgs.drop i
    | none => msgs.take 1 ++ msgs.drop (((userIndices msgs).getLast?).getD 0)

/-- The tool-chain well-formedness hypothesis on a transcript: every
tool-role message is preceded by an assistant message in the same turn
group (no user message and no other assistant message in between) holding
a `tool_calls` entry whose id matches the tool message. -/
def ToolChainWellFormed (msgs : List Message) : Prop :=
  ∀ i : Nat, i < msgs.length →
    ∀ tmsg : Message, msgs[i]? = some tmsg → tmsg.role = Role.tool →
      ∃ j : Nat, j < i ∧
        ∃ amsg : Message, msgs[j]? = some amsg ∧ amsg.role = Role.assistant ∧
          (∀ k : Nat, j < k → k < i →
            ∀ x : Message, msgs[k]? = some x →
              x.role ≠ Role.assistant ∧ x.role ≠ Role.user) ∧
          ∃ tc ∈ amsg.tool_calls, some tc.id = tmsg.tool_call_id

/-- The post-trim safety property: every tool-role message still resolves
to an earlier assistant message of the retained transcript holding a
matching `tool_calls` entry. -/
def ToolChainResolved (msgs : List Message) : Prop :=
  ∀ i : Nat, i < msgs.length →
    ∀ tmsg : Message, msgs[i]? = some tmsg → tmsg.role = Role.tool →
      ∃ j : Nat, j < i ∧
        ∃ amsg : Message, msgs[j]? = some amsg ∧ amsg.role = Role.assistant ∧
          ∃ tc ∈ amsg.tool_calls, some tc.id = tmsg.tool_call_id

/-- Number of user-role messages in a transcript. -/
def usersCount (msgs : List Message) : Nat :=
  (msgs.filter (fun m => m.role = Role.user)).length

/-! ## Concrete collaborators used by witnesses and counterexamples -/

/-- A knowledge oracle that always reports a gateway error. -/
def kbOracle : String → Option String → KnowledgeResult :=
  fun _ _ => KnowledgeResult.error ("not found")

/-- A search oracle that always returns an empty result list. -/
def searchOracleEmpty : String → Option Int → Except String (List SearchResult) :=
  fun _ _ => Except.ok []

/-- A search oracle that always raises. -/
def searchOracleRaises : String → Option Int → Except String (List SearchResult) :=
  fun _ _ => Except.error ("connection refused")

/-- A concrete agent configuration built from the oracles above. -/
def agentA : AgentModel := ⟨kbOracle, searchOracleEmpty, 30⟩

/-- A sample transcript head playing the persistent system message. -/
def mSystem : Message :=
  ⟨Role.system, some ("You are an EU5 strategy advisor."), [], none⟩

/-- A tool call whose parsed arguments carry an extra unexpected field
beside a valid `category`. -/
def extraFieldToolCall : ToolCall :=
  ⟨"call1", "query_knowledge",
    Except.ok (Json.obj
      [(("category"), Json.str ("mechanics")), (("extra"), Json.num 1)])⟩

/-- An LLM oracle that always requests the extra-field tool call and never
produces content. -/
def llmOnlyBadToolCalls : List Message → AssistantMessage :=
  fun _ => ⟨none, [extraFieldToolCall]⟩

/-- An LLM oracle that always requests one well-formed `web_search` tool
call and never produces content. -/
def llmOnlyGoodToolCalls : List Message → AssistantMessage :=
  fun _ => ⟨none, [⟨"call1", "web_search",
    Except.ok (Json.obj [(("query"), Json.str ("x"))])⟩]⟩

/-- An LLM oracle that immediately answers with plain text. -/
def llmPlainText : List Message → AssistantMessage :=
  fun _ => ⟨some ("Understood."), []⟩

/-- A concrete tool call used in the sample transcript below. -/
def wfToolCall : ToolCall :=
  ⟨"tc1", "query_knowledge",
    Except.ok (Json.obj [(("category"), Json.str ("economy"))])⟩

/-- A sample assistant message requesting `wfToolCall`. -/
def wfAssistant : Message := ⟨Role.assistant, none, [wfToolCall], none⟩

/-- The sample tool result answering `wfToolCall`. -/
def wfTool : Message := ⟨Role.tool, some ("result"), [], some ("tc1")⟩

/-- A sample well-formed transcript with two turn groups, the first of which
carries a tool-call chain. -/
def wfTranscript : List Message :=
  [mSystem, userMessage ("q1"), wfAssistant, wfTool,
    userMessage ("q2"), ⟨Role.assistant, some ("a2"), [], none⟩]

/-! ## Cache lemmas -/

theorem removeKey_length_of_mem {α : Type} {k : String} :
    ∀ {l : List (String × α)}, (lookupKey k l).isSome →
      l.length = (removeKey k l).length + 1 := by
  intro l
  induction l with
  | nil => intro h; simp [lookupKey] at h
  | cons kv rest ih =>
    intro h
    obtain ⟨k0, v⟩ := kv
    by_cases hk : k0 = k
    · simp [removeKey, hk]
    · simp [lookupKey, hk] at h
      simp [removeKey, hk, ih h]

theorem set_length_le {α : Type} {c c1 : LRUCache α} {k : String} {v : α}
    (h : c.set k v = some c1) (hb : (c.cache.length : Int) ≤ c.maxsize) :
    c1.maxsize = c.maxsize ∧ (c1.cache.length : Int) ≤ c1.maxsize := by
  unfold LRUCache.set at h
  split at h
  · cases h
    have hlen := removeKey_length_of_mem (k := k) (l := c.cache) (by assumption)
    refine ⟨rfl, ?_⟩
    have hl : (removeKey k c.cache ++ [(k, v)]).length = c.cache.length := by
      simp [hlen]
    simpa [hl] using hb
  · split at h
    · split at h
      · cases h
      · rename_i hd tl heq
        cases h
        refine ⟨rfl, ?_⟩
        have hlen : c.cache.length = tl.length + 1 := by rw [heq]; simp
        rw [hlen] at hb
        simp only [List.length_append, List.length_cons, List.length_nil]
        push_cast at hb ⊢
        omega
    · cases h
      refine ⟨rfl, ?_⟩
      rename_i hnotfull
      push_neg at hnotfull
      simp only [List.length_append, List.length_cons, List.length_nil]
      push_cast
      omega

theorem get_length_eq {α : Type} (c : LRUCache α) (k : String) :
    ((c.get k).2).maxsize = c.maxsize ∧
      ((c.get k).2).cache.length = c.cache.length := by
  unfold LRUCache.get
  cases hl : lookupKey k c.cache with
  | none => exact ⟨rfl, rfl⟩
  | some v =>
    refine ⟨rfl, ?_⟩
    have hlen := removeKey_length_of_mem (k := k) (l := c.cache) (by rw [hl]; rfl)
    simp [hlen]

theorem runOps_inv {α : Type} :
    ∀ (ops : List (CacheOp α)) (c c' : LRUCache α),
      runOps c ops = some c' → 0 ≤ c.maxsize →
      (c.cache.length : Int) ≤ c.maxsize →
      c'.maxsize = c.maxsize ∧ (c'.cache.length : Int) ≤ c'.maxsize := by
  intro ops
  induction ops with
  | nil =>
    intro c c' h _ hb
    cases h
    exact ⟨rfl, hb⟩
  | cons op rest ih =>
    intro c c' h hn hb
    cases op with
    | set k v =>
      simp only [runOps] at h
      cases hs : c.set k v with
      | none => rw [hs] at h; cases h
      | some c1 =>
        rw [hs] at h
        obtain ⟨hm, hlen⟩ := set_length_le hs hb
        obtain ⟨hm2, hlen2⟩ := ih c1 c' h (by rw [hm]; exact hn) hlen
        exact ⟨by rw [hm2, hm], hlen2⟩
    | get k =>
      simp only [runOps] at h
      obtain ⟨hm, hlen⟩ := get_length_eq c k
      obtain ⟨hm2, hlen2⟩ := ih _ c' h (by rw [hm]; exact hn) (by rw [hm, hlen]; exact hb)
      exact ⟨by rw [hm2, hm], hlen2⟩
    | clear =>
      simp only [runOps] at h
      obtain ⟨hm2, hlen2⟩ := ih _ c' h (by simpa [LRUCache.clear] using hn)
        (by simpa [LRUCache.clear] using hn)
      exact ⟨by simpa [LRUCache.clear] using hm2, hlen2⟩

/-- Claim C7: starting from a cache constructed with a nonnegative capacity,
after any successful sequence of `set`/`get`/`clear` calls the entry count
reported by `stats` never exceeds the capacity; moreover an insert at
capacity first evicts exactly one entry, leaving the entry count
unchanged. -/
theorem eu5_c7 :
    (∀ (α : Type) (n : Int), 0 ≤ n →
      ∀ (ops : List (CacheOp α)) (c' : LRUCache α),
        runOps (LRUCache.init α n) ops = some c' →
        (c'.stats.size : Int) ≤ n) ∧
    (∀ (α : Type) (c : LRUCache α) (k : String) (v : α) (c1 : LRUCache α),
      lookupKey k c.cache = none → c.maxsize ≤ (c.cache.length : Int) →
      c.set k v = some c1 → c1.stats.size = c.stats.size) := by
  constructor
  · intro α n hn ops c' h
    obtain ⟨hm, hlen⟩ := runOps_inv ops (LRUCache.init α n) c' h hn (by simp [LRUCache.init]; exact hn)
    simpa [LRUCache.stats, hm] using hlen
  · intro α c k v c1 habs hfull h
    unfold LRUCache.set at h
    rw [habs] at h
    simp only [Option.isSome_none, Bool.false_eq_true, if_false] at h
    rw [if_pos hfull] at h
    cases hc : c.cache with
    | nil =>
      rw [hc] at h
      cases h
    | cons hd tl =>
      rw [hc] at h
      cases h
      simp [LRUCache.stats, hc]

/-- Witness for C7 at a concrete run: capacity 2, three inserts. -/
theorem eu5_c7_witness :
    runOps (LRUCache.init Nat 2)
        [CacheOp.set ("a") 1, CacheOp.set ("b") 2, CacheOp.set ("c") 3]
      = some ⟨2, [(("b"), 2), (("c"), 3)], 0, 0⟩ ∧
    ((LRUCache.stats ⟨2, [(("b"), 2), (("c"), 3)], 0, 0⟩).size : Int) ≤ 2 :=
  ⟨rfl, eu5_c7.1 Nat 2 (by decide)
    [CacheOp.set ("a") 1, CacheOp.set ("b") 2, CacheOp.set ("c") 3]
    ⟨2, [(("b"), 2), (("c"), 3)], 0, 0⟩ rfl⟩

/-- Claim C8: at capacity, inserting a fresh key evicts exactly the head of
the recency order (the least-recently-touched entry); concretely, with
capacity 2, after `set a 1`, `set b 2`, `get a`, `set c 3` the key `b` is
absent while `a` and `c` return their stored values. -/
theorem eu5_c8 :
    (∀ (α : Type) (c : LRUCache α) (k : String) (v : α)
        (k0 : String) (v0 : α) (rest : List (String × α)),
      c.cache = (k0, v0) :: rest → lookupKey k c.cache = none →
      c.maxsize ≤ (c.cache.length : Int) →
      c.set k v = some { c with cache := rest ++ [(k, v)] }) ∧
    ((runOps (LRUCache.init Nat 2)
        [CacheOp.set ("a") 1, CacheOp.set ("b") 2,
         CacheOp.get ("a"), CacheOp.set ("c") 3]).map
      (fun c => ((c.get ("b")).1, (c.get ("a")).1, (c.get ("c")).1))
      = some (none, some 1, some 3)) := by
  constructor
  · intro α c k v k0 v0 rest hc habs hfull
    unfold LRUCache.set
    rw [habs]
    simp only [Option.isSome_none, Bool.false_eq_true, if_false]
    rw [if_pos hfull, hc]
  · rfl

/-- Witness for C8 at a concrete full cache: capacity 1 holding `x`,
inserting `y` evicts `x`. -/
theorem eu5_c8_witness :
    LRUCache.set ⟨1, [(("x"), 5)], 0, 0⟩ ("y") 7
      = some ⟨1, [(("y"), 7)], 0, 0⟩ :=
  eu5_c8.1 Nat ⟨1, [(("x"), 5)], 0, 0⟩ ("y") 7 ("x") 5 [] rfl rfl (by decide)

/-- Claim C10: with capacity at least 1 every `set` succeeds, while a cache
constructed with capacity 0 (or negative) raises on the first insert of an
absent key, because eviction pops from an empty ordered dictionary. -/
theorem eu5_c10 :
    (∀ (α : Type) (c : LRUCache α) (k : String) (v : α),
      1 ≤ c.maxsize → (c.set k v).isSome) ∧
    (LRUCache.init Nat 0).set ("a") 1 = none ∧
    (LRUCache.init Nat (-1)).set ("a") 1 = none := by
  refine ⟨?_, rfl, rfl⟩
  intro α c k v h1
  unfold LRUCache.set
  split
  · rfl
  · split
    · rename_i hfull
      cases hc : c.cache with
      | nil =>
        rw [hc] at hfull
        simp at hfull
        omega
      | cons hd tl => simp
    · rfl

/-- Witness for C10 at a concrete cache of capacity 1. -/
theorem eu5_c10_witness :
    (LRUCache.set ⟨1, [(("x"), 5)], 0, 0⟩ ("y") 7).isSome = true :=
  eu5_c10.1 Nat ⟨1, [(("x"), 5)], 0, 0⟩ ("y") 7 (by decide)

/-! ## Complexity classifier claims -/

/-- Claim C6: the classifier is a function of the input text alone and
returns true exactly when at least two signal phrases, or at least two
separator words, or at least two commas/semicolons, or at least twenty
words occur (case-insensitively); and on the three concrete inputs of the
spec it returns false, true and false respectively. -/
theorem eu5_c6 :
    (∀ s : String, isComplexQuery s = true ↔
      (2 ≤ signalCount (lowerChars s) ∨ 2 ≤ countSeps none (lowerChars s) ∨
        2 ≤ punctuationSplit (lowerChars s) ∨
        20 ≤ countWords false (lowerChars s))) ∧
    isComplexQuery ("How do estates work?") = false ∧
    isComplexQuery ("Give me a 10 year campaign plan with trade-off analysis and contingencies") = true ∧
    isComplexQuery ("Plan England opening") = false := by
  refine ⟨?_, by decide, by decide, by decide⟩
  intro s
  unfold isComplexQuery
  simp [Bool.or_eq_true, decide_eq_true_eq, or_assoc]

/-! ## Trimming lemmas -/

theorem mem_of_getLast?_eq_some {β : Type} :
    ∀ {xs : List β} {a : β}, xs.getLast? = some a → a ∈ xs := by
  intro xs
  induction xs with
  | nil => intro a h; cases h
  | cons x rest ih =>
    intro a h
    cases rest with
    | nil =>
      simp [List.getLast?_singleton] at h
      simp [h]
    | cons y t =>
      rw [List.getLast?_cons_cons] at h
      exact List.mem_cons_of_mem x (ih h)

theorem userIndicesFrom_mem :
    ∀ (msgs : List Message) (start i : Nat),
      i ∈ userIndicesFrom start msgs ↔
        (start ≤ i ∧ ∃ m : Message,
          msgs[i - start]? = some m ∧ m.role = Role.user) := by
  intro msgs
  induction msgs with
  | nil =>
    intro start i
    simp [userIndicesFrom]
  | cons m rest ih =>
    intro start i
    by_cases hrole : m.role = Role.user
    · simp only [userIndicesFrom, if_pos hrole, List.mem_cons]
      constructor
      · rintro (rfl | hmem)
        · exact ⟨le_refl _, m, by simp, hrole⟩
        · obtain ⟨h1, mm, hget, hu⟩ := (ih (start + 1) i).1 hmem
          refine ⟨by omega, mm, ?_, hu⟩
          rw [show i - start = (i - (start + 1)) + 1 by omega]
          simpa using hget
      · rintro ⟨h1, mm, hget, hu⟩
        rcases Nat.eq_or_lt_of_le h1 with heq | hlt
        · exact Or.inl heq.symm
        · refine Or.inr ((ih (start + 1) i).2 ⟨by omega, mm, ?_, hu⟩)
          rw [show i - start = (i - (start + 1)) + 1 by omega] at hget
          simpa using hget
    · simp only [userIndicesFrom, if_neg hrole]
      constructor
      · intro hmem
        obtain ⟨h1, mm, hget, hu⟩ := (ih (start + 1) i).1 hmem
        refine ⟨by omega, mm, ?_, hu⟩
        rw [show i - start = (i - (start + 1)) + 1 by omega]
        simpa using hget
      · rintro ⟨h1, mm, hget, hu⟩
        rcases Nat.eq_or_lt_of_le h1 with heq | hlt
        · exfalso
          rw [show i - start = 0 by omega] at hget
          simp at hget
          rw [← hget] at hu
          exact hrole hu
        · refine (ih (start + 1) i).2 ⟨by omega, mm, ?_, hu⟩
          rw [show i - start = (i - (start + 1)) + 1 by omega] at hget
          simpa using hget

theorem userIndices_mem (msgs : List Message) (i : Nat) :
    i ∈ userIndices msgs ↔
      ∃ m : Message, msgs[i]? = some m ∧ m.role = Role.user := by
  rw [userIndices, userIndicesFrom_mem]
  simp

theorem userIndicesFrom_length :
    ∀ (msgs : List Message) (start : Nat),
      (userIndicesFrom start msgs).length = usersCount msgs := by
  intro msgs
  induction msgs with
  | nil => intro start; simp [userIndicesFrom, usersCount]
  | cons m rest ih =>
    intro start
    by_cases hrole : m.role = Role.user
    · rw [userIndicesFrom, if_pos hrole, List.length_cons, ih (start + 1)]
      simp [usersCount, List.filter_cons, hrole]
    · rw [userIndicesFrom, if_neg hrole, ih (start + 1)]
      simp [usersCount, List.filter_cons, hrole]

theorem usersCount_drop_getLast :
    ∀ (msgs : List Message) (start l : Nat),
      (userIndicesFrom start msgs).getLast? = some l →
      usersCount (msgs.drop (l - start)) = 1 := by
  intro msgs
  induction msgs with
  | nil => intro start l h; cases h
  | cons m rest ih =>
    intro start l h
    by_cases hrole : m.role = Role.user
    · rw [userIndicesFrom, if_pos hrole] at h
      cases hS : userIndicesFrom (start + 1) rest with
      | nil =>
        rw [hS, List.getLast?_singleton] at h
        cases h
        rw [Nat.sub_self, List.drop_zero]
        have h0 : usersCount rest = 0 := by
          rw [← userIndicesFrom_length rest (start + 1), hS]
          rfl
        simp only [usersCount, List.filter_cons, hrole] at h0 ⊢
        simp at h0 ⊢
        exact h0
      | cons a t =>
        rw [hS, List.getLast?_cons_cons] at h
        rw [← hS] at h
        have hl := ih (start + 1) l h
        have hge : start + 1 ≤ l := by
          have hmem : l ∈ userIndicesFrom (start + 1) rest :=
            mem_of_getLast?_eq_some h
          exact ((userIndicesFrom_mem rest (start + 1) l).1 hmem).1
        rw [show l - start = (l - (start + 1)) + 1 by omega]
        simpa using hl
    · rw [userIndicesFrom, if_neg hrole] at h
      have hl := ih (start + 1) l h
      have hge : start + 1 ≤ l := by
        have hmem : l ∈ userIndicesFrom (start + 1) rest :=
          mem_of_getLast?_eq_some h
        exact ((userIndicesFrom_mem rest (start + 1) l).1 hmem).1
      rw [show l - start = (l - (start + 1)) + 1 by omega]
      simpa using hl

theorem tryCuts_shape {cap : Int} {msgs : List Message} {m0 : Message} :
    ∀ {l : List Nat} {r : List Message}, tryCuts cap msgs m0 l = some r →
      ∃ i ∈ l, r = m0 :: msgs.drop i ∧ (r.length : Int) ≤ cap := by
  intro l
  induction l with
  | nil => intro r h; cases h
  | cons i rest ih =>
    intro r h
    rw [tryCuts] at h
    split at h
    · cases h
      exact ⟨i, List.mem_cons_self i rest, rfl, by assumption⟩
    · obtain ⟨j, hj, hr, hlen⟩ := ih h
      exact ⟨j, List.mem_cons_of_mem i hj, hr, hlen⟩

theorem tryCuts_eq_find (cap : Int) (msgs : List Message) (m0 : Message) :
    ∀ l : List Nat,
      tryCuts cap msgs m0 l = Option.map (fun i => m0 :: msgs.drop i)
        (l.find? (fun i => decide (((m0 :: msgs.drop i).length : Int) ≤ cap))) := by
  intro l
  induction l with
  | nil => rfl
  | cons i rest ih =>
    rw [tryCuts, List.find?]
    by_cases hc : ((m0 :: msgs.drop i).length : Int) ≤ cap
    · simp only [if_pos hc, decide_eq_true hc]
      rfl
    · simp only [if_neg hc]
      rw [ih]
      have : decide (((m0 :: msgs.drop i).length : Int) ≤ cap) = false :=
        decide_eq_false hc
      rw [this]

theorem trimMessages_nil (cap : Int) : trimMessages cap [] = [] := by
  unfold trimMessages
  split
  · rfl
  · split
    · rfl
    · rfl

theorem trimMessages_cons (cap : Int) (m0 : Message) (rest : List Message) :
    trimMessages cap (m0 :: rest) =
      if (((m0 :: rest).length : Int)) ≤ cap then m0 :: rest
      else if (userIndices (m0 :: rest)).length ≤ 1 then m0 :: rest
      else
        match tryCuts cap (m0 :: rest) m0 ((userIndices (m0 :: rest)).drop 1) with
        | some remaining => remaining
        | none =>
          match (userIndices (m0 :: rest)).getLast? with
          | some last => m0 :: (m0 :: rest).drop last
          | none => m0 :: rest := rfl

theorem trim_shape (cap : Int) (msgs : List Message) :
    trimMessages cap msgs = msgs ∨
      ∃ m0 rest i, msgs = m0 :: rest ∧ i ∈ userIndices msgs ∧
        trimMessages cap msgs = m0 :: msgs.drop i ∧
        (((trimMessages cap msgs).length : Int) ≤ cap ∨
          (userIndices msgs).getLast? = some i) := by
  cases msgs with
  | nil => exact Or.inl (trimMessages_nil cap)
  | cons m0 rest =>
    rw [trimMessages_cons]
    by_cases h1 : (((m0 :: rest).length : Int)) ≤ cap
    · rw [if_pos h1]; exact Or.inl rfl
    · rw [if_neg h1]
      by_cases h2 : (userIndices (m0 :: rest)).length ≤ 1
      · rw [if_pos h2]; exact Or.inl rfl
      · rw [if_neg h2]
        cases ht : tryCuts cap (m0 :: rest) m0 ((userIndices (m0 :: rest)).drop 1) with
        | some r =>
          obtain ⟨i, hi, hr, hlen⟩ := tryCuts_shape ht
          exact Or.inr ⟨m0, rest, i, rfl, List.mem_of_mem_drop hi, hr, Or.inl hlen⟩
        | none =>
          cases hlast : (userIndices (m0 :: rest)).getLast? with
          | some last =>
            exact Or.inr ⟨m0, rest, last, rfl, mem_of_getLast?_eq_some hlast, rfl,
              Or.inr rfl⟩
          | none =>
            rw [List.getLast?_eq_none_iff] at hlast
            rw [hlast] at h2
            simp at h2

theorem trim_sub {cap : Int} {msgs : List Message} :
    ∀ m ∈ trimMessages cap msgs, m ∈ msgs := by
  intro m hm
  rcases trim_shape cap msgs with heq | ⟨m0, rest, i, hmsgs, _, heq, _⟩
  · rwa [heq] at hm
  · rw [heq] at hm
    rcases List.mem_cons.1 hm with rfl | hd
    · rw [hmsgs]; exact List.mem_cons_self _ _
    · exact List.mem_of_mem_drop hd

theorem trim_ne_nil {cap : Int} {msgs : List Message} (h : msgs ≠ []) :
    trimMessages cap msgs ≠ [] := by
  rcases trim_shape cap msgs with heq | ⟨m0, rest, i, hmsgs, _, heq, _⟩
  · rwa [heq]
  · rw [heq]
    exact List.cons_ne_nil _ _

/-- Claim C3: the implemented trimming function coincides with the
spec-side algorithm (no-op under the cap or with fewer than two turn
groups; otherwise the first fitting cut from the oldest boundary forward;
otherwise the system message plus the last turn group) on every transcript
and every cap. -/
theorem eu5_c3 :
    ∀ (cap : Int) (msgs : List Message),
      trimMessages cap msgs = trimSpecification cap msgs := by
  intro cap msgs
  cases msgs with
  | nil =>
    rw [trimMessages_nil, trimSpecification]
    by_cases h1 : ((List.length ([] : List Message) : Int)) ≤ cap
    · rw [if_pos (Or.inl h1)]
    · rw [if_pos (Or.inr (by simp [userIndices, userIndicesFrom]))]
  | cons m0 rest =>
    rw [trimMessages_cons, trimSpecification]
    by_cases h1 : (((m0 :: rest).length : Int)) ≤ cap
    · rw [if_pos h1, if_pos (Or.inl h1)]
    · rw [if_neg h1]
      by_cases h2 : (userIndices (m0 :: rest)).length ≤ 1
      · rw [if_pos h2, if_pos (Or.inr (by omega))]
      · rw [if_neg h2, if_neg (by push_neg; exact ⟨by omega, by omega⟩)]
        have hpred : (fun i => decide ((((m0 :: rest).take 1 ++
            (m0 :: rest).drop i).length : Int) ≤ cap))
            = (fun i =>

                decide (((m0 :: (m0 :: rest).drop i).length : Int) ≤ cap)) := by
          funext j
          rfl
        rw [tryCuts_eq_find cap (m0 :: rest) m0, hpred]
        cases hf : ((userIndices (m0 :: rest)).drop 1).find?
            (fun i => decide (((m0 :: (m0 :: rest).drop i).length : Int) ≤ cap)) with
        | some i => rfl
        | none =>
          cases hlast : (userIndices (m0 :: rest)).getLast? with
          | some last => rfl
          | none =>
            rw [List.getLast?_eq_none_iff] at hlast
            rw [hlast] at h2
            simp at h2

/-- Claim C4: on a well-formed transcript (system message at index 0,
every tool message chained to its immediately preceding in-group assistant
message), trimming keeps the unchanged system message at index 0 and every
retained tool message still resolves to a retained assistant message
carrying the matching `tool_calls` entry; the function itself is total, so
no exception can arise. -/
theorem eu5_c4 (cap : Int) (msgs : List Message) (m0 : Message)
    (rest : List Message) (hm : msgs = m0 :: rest)
    (hsys : m0.role = Role.system) (hwf : ToolChainWellFormed msgs) :
    (trimMessages cap msgs)[0]? = some m0 ∧
      ToolChainResolved (trimMessages cap msgs) := by
  rcases trim_shape cap msgs with heq | ⟨m0', rest', k, hm', hk, heq, _⟩
  · rw [heq, hm]
    refine ⟨by rw [List.getElem?_cons_zero], ?_⟩
    rw [← hm]
    intro i hilen tmsg hget htool
    obtain ⟨j, hj, amsg, hja, harole, _, hmatch⟩ := hwf i hilen tmsg hget htool
    exact ⟨j, hj, amsg, hja, harole, hmatch⟩
  · have hm0 : m0' = m0 := by
      rw [hm] at hm'
      injection hm' with h1 _
      exact h1.symm
    subst hm0
    rw [heq]
    refine ⟨by rw [List.getElem?_cons_zero], ?_⟩
    obtain ⟨mu, hmu, hmurole⟩ := (userIndices_mem msgs k).1 hk
    intro i _ tmsg hget htool
    cases i with
    | zero =>
      rw [List.getElem?_cons_zero] at hget
      cases hget
      rw [hsys] at htool
      cases htool
    | succ p =>
      rw [List.getElem?_cons_succ, List.getElem?_drop] at hget
      have holen : k + p < msgs.length := (List.getElem?_eq_some.1 hget).1
      obtain ⟨j, hj, amsg, hja, harole, hbet, hmatch⟩ :=
        hwf (k + p) holen tmsg hget htool
      have hp : 0 < p := by
        rcases Nat.eq_zero_or_pos p with rfl | hp
        · exfalso
          rw [Nat.add_zero] at hget
          rw [hget] at hmu
          cases hmu
          rw [hmurole] at htool
          cases htool
        · exact hp
      have hkj : k < j := by
        rcases lt_trichotomy j k with hlt | heqjk | hgt
        · exfalso
          have := hbet k hlt (by omega) mu hmu
          exact this.2 hmurole
        · exfalso
          rw [heqjk] at hja
          rw [hja] at hmu
          cases hmu
          rw [hmurole] at harole
          cases harole
        · exact hgt
      refine ⟨j - k + 1, by omega, amsg, ?_, harole, hmatch⟩
      rw [List.getElem?_cons_succ, List.getElem?_drop,
        show k + (j - k) = j by omega]
      exact hja

/-- Witness for C4 on the sample transcript with a tool-call chain. -/
theorem eu5_c4_witness :
    (trimMessages 4 wfTranscript)[0]? = some mSystem ∧
      ToolChainResolved (trimMessages 4 wfTranscript) :=
  eu5_c4 4 wfTranscript mSystem
    [userMessage ("q1"), wfAssistant, wfTool, userMessage ("q2"),
      ⟨Role.assistant, some ("a2"), [], none⟩]
    rfl rfl
    (by
      intro i hi tmsg hget htool
      have hi6 : i < 6 := hi
      interval_cases i
      · cases hget; cases htool
      · cases hget; cases htool
      · cases hget; cases htool
      · cases hget
        refine ⟨2, by omega, wfAssistant, rfl, rfl, ?_, ?_⟩
        · intro k hk1 hk2 x hx
          omega
        · exact ⟨wfToolCall, by simp [wfAssistant], rfl⟩
      · cases hget; cases htool
      · cases hget; cases htool)

/-- Claim C9: trimming is idempotent on any transcript whose head is not a
user message (in particular any transcript led by the system message):
a second trim never changes the result of the first. -/
theorem eu5_c9 (cap : Int) (msgs : List Message)
    (h : ∀ (m0 : Message) (rest : List Message),
      msgs = m0 :: rest → m0.role ≠ Role.user) :
    trimMessages cap (trimMessages cap msgs) = trimMessages cap msgs := by
  rcases trim_shape cap msgs with heq | ⟨m0, rest, i, hm, hi, heq, hcase⟩
  · rw [heq]
    exact heq
  · rcases hcase with hlen | hlast
    · rw [heq] at hlen ⊢
      rw [trimMessages_cons, if_pos hlen]
    · have hm0 : m0.role ≠ Role.user := h m0 rest hm
      have husers : usersCount (msgs.drop i) = 1 := by
        have hh := usersCount_drop_getLast msgs 0 i hlast
        simpa using hh
      rw [heq, trimMessages_cons]
      by_cases hl : (((m0 :: msgs.drop i).length : Int)) ≤ cap
      · rw [if_pos hl]
      · rw [if_neg hl, if_pos ?hle]
        case hle =>
          rw [userIndices, userIndicesFrom_length]
          simp only [usersCount, List.filter_cons]
          simp [hm0, husers]
          rw [show (List.filter (fun m => decide (m.role = Role.user))
            (msgs.drop i)).length = usersCount (msgs.drop i) from rfl, husers]

/-- Witness for C9 on a concrete over-cap transcript hitting the fallback
branch. -/
theorem eu5_c9_witness :
    trimMessages 2 (trimMessages 2
      [mSystem, userMessage ("q1"), ⟨Role.assistant, some ("a1"), [], none⟩,
        userMessage ("q2"), ⟨Role.assistant, some ("a2"), [], none⟩])
    = trimMessages 2
      [mSystem, userMessage ("q1"), ⟨Role.assistant, some ("a1"), [], none⟩,
        userMessage ("q2"), ⟨Role.assistant, some ("a2"), [], none⟩] :=
  eu5_c9 2 _ (by
    intro m0 rest hm
    injection hm with h1 _
    rw [← h1]
    decide)

/-! ## Tool execution claims -/

/-- Claim C2 (the code violates it): tool-call execution is total on
unparseable JSON, missing fields, wrong field types and unknown tool names
— but an argument object carrying an extra unexpected field passes the
per-field validation and is splatted into the tool method, raising
`TypeError` past `_execute_tool_call`.  The first conjunct exhibits the
raised exception on the concrete failing input; the remaining conjuncts
verify the stringly-typed branches the claim names: unknown tool, JSON
parse failure, and a caught search-gateway exception. -/
theorem eu5_c2 :
    executeToolCall agentA extraFieldToolCall
      = Except.error ("TypeError: _query_knowledge() got an unexpected keyword argument") ∧
    (∀ (A : AgentModel) (tc : ToolCall) (j : Json),
      tc.name ≠ "query_knowledge" → tc.name ≠ "web_search" →
      tc.arguments = Except.ok j →
      executeToolCall A tc = Except.ok ("Unknown tool: " ++ tc.name)) ∧
    (∀ (A : AgentModel) (tc : ToolCall) (e : String),
      tc.arguments = Except.error e →
      executeToolCall A tc = Except.ok
        ("Error: invalid tool arguments (JSON decode failed: " ++ e ++ ")")) ∧
    (∀ (A : AgentModel) (q e : String),
      A.search q (some 3) = Except.error e →
      executeToolCall A
          ⟨"c", "web_search", Except.ok (Json.obj [(("query"), Json.str q)])⟩
        = Except.ok ("Web search error: " ++ e)) := by
  refine ⟨rfl, ?_, ?_, ?_⟩
  · intro A tc j h1 h2 harg
    simp only [executeToolCall, harg]
    rw [if_neg h1, if_neg h2]
  · intro A tc e harg
    simp only [executeToolCall, harg]
  · intro A q e hs
    simp [executeToolCall, lookupField, keysAllowed, webSearch, hs]

/-- Witness for C2 applying the unknown-tool and caught-search-exception
conjuncts at concrete inputs. -/
theorem eu5_c2_witness :
    executeToolCall agentA ⟨"c1", "frobnicate", Except.ok Json.null⟩
      = Except.ok ("Unknown tool: frobnicate") ∧
    executeToolCall ⟨kbOracle, searchOracleRaises, 30⟩
        ⟨"c", "web_search", Except.ok (Json.obj [(("query"), Json.str ("estates"))])⟩
      = Except.ok ("Web search error: connection refused") :=
  ⟨eu5_c2.2.1 agentA ⟨"c1", "frobnicate", Except.ok Json.null⟩ Json.null
      (by decide) (by decide) rfl,
    eu5_c2.2.2.2 ⟨kbOracle, searchOracleRaises, 30⟩ ("estates")
      ("connection refused") rfl⟩

/-! ## Chat loop claims -/

theorem execToolCalls_ok {A : AgentModel} :
    ∀ {l : List ToolCall},
      (∀ tc ∈ l, ∃ s : String, executeToolCall A tc = Except.ok s) →
      ∃ ms : List Message, execToolCalls A l = Except.ok ms := by
  intro l
  induction l with
  | nil => intro _; exact ⟨[], rfl⟩
  | cons tc rest ih =>
    intro h
    obtain ⟨s, hs⟩ := h tc (List.mem_cons_self tc rest)
    obtain ⟨ms, hms⟩ := ih (fun tc2 h2 => h tc2 (List.mem_cons_of_mem tc h2))
    refine ⟨toolMessage tc s :: ms, ?_⟩
    rw [execToolCalls, hs, hms]

theorem chatLoop_exhausts (A : AgentModel)
    (llm : List Message → AssistantMessage) (isC : Bool)
    (h : ∀ req : List Message, (llm req).content = none ∧
      (llm req).tool_calls ≠ [] ∧
      ∀ tc ∈ (llm req).tool_calls,
        ∃ s : String, executeToolCall A tc = Except.ok s) :
    ∀ (fuel : Nat) (msgs : List Message) (reqs : List (List Message)),
      ∃ out : ChatOutcome, chatLoop A llm isC fuel msgs reqs = Except.ok out ∧
        out.reply = fallbackMessage ∧
        out.requests.length = reqs.length + fuel := by
  intro fuel
  induction fuel with
  | zero =>
    intro msgs reqs
    exact ⟨⟨fallbackMessage, msgs, reqs⟩, rfl, rfl, rfl⟩
  | succ fuel ih =>
    intro msgs reqs
    obtain ⟨hc, hne, hexec⟩ :=
      h (buildRequest isC (trimMessages A.maxHist msgs))
    obtain ⟨tms, htms⟩ := execToolCalls_ok hexec
    obtain ⟨out, hout, hreply, hlen⟩ := ih
      (trimMessages A.maxHist msgs ++
        [assistantToMessage (llm (buildRequest isC (trimMessages A.maxHist msgs)))] ++ tms)
      (reqs ++ [buildRequest isC (trimMessages A.maxHist msgs)])
    refine ⟨out, ?_, hreply, ?_⟩
    · simp only [chatLoop]
      rw [if_neg (by simpa [List.isEmpty_iff] using hne), htms]
      rw [← hout]
    · rw [hlen]
      simp only [List.length_append, List.length_cons, List.length_nil]
      omega

/-- Counterexample to claim C1 as stated: an LLM oracle that always
requests tool calls and never produces content can still make `chat`
raise, because a tool call whose parsed arguments carry an extra
unexpected field hits the `TypeError` of `_execute_tool_call` in the very
first iteration — so `chat` neither makes 10 LLM calls nor returns the
fallback string. -/
theorem eu5_c1_counterexample :
    chat agentA llmOnlyBadToolCalls [mSystem] ("hi")
      = Except.error ("TypeError: _query_knowledge() got an unexpected keyword argument") ∧
    (llmOnlyBadToolCalls []).content = none ∧
    (llmOnlyBadToolCalls []).tool_calls ≠ [] :=
  ⟨rfl, rfl, by simp [llmOnlyBadToolCalls]⟩

/-- Claim C1, amended: when the LLM endpoint always responds with
tool-call requests and never plain content, and every requested tool call
executes without raising (in particular its parsed arguments carry no
unexpected extra field), `chat` terminates after exactly
`max_iterations = 10` LLM calls and returns the fixed fallback string. -/
theorem eu5_c1 (A : AgentModel) (llm : List Message → AssistantMessage)
    (msgs0 : List Message) (u : String)
    (h : ∀ req : List Message, (llm req).content = none ∧
      (llm req).tool_calls ≠ [] ∧
      ∀ tc ∈ (llm req).tool_calls,
        ∃ s : String, executeToolCall A tc = Except.ok s) :
    ∃ out : ChatOutcome, chat A llm msgs0 u = Except.ok out ∧
      out.reply = fallbackMessage ∧ out.requests.length = maxIterations := by
  obtain ⟨out, hout, hreply, hlen⟩ :=
    chatLoop_exhausts A llm (isComplexQuery u) h maxIterations
      (msgs0 ++ [userMessage u]) []
  exact ⟨out, hout, hreply, by rw [hlen]; rfl⟩

/-- Witness for the amended C1 with a concrete always-tool-calling oracle
whose tool call executes cleanly. -/
theorem eu5_c1_witness :
    ∃ out : ChatOutcome, chat agentA llmOnlyGoodToolCalls [mSystem] ("hello")
      = Except.ok out ∧ out.reply = fallbackMessage ∧
      out.requests.length = maxIterations :=
  eu5_c1 agentA llmOnlyGoodToolCalls [mSystem] ("hello")
    (fun req => ⟨rfl, by simp [llmOnlyGoodToolCalls], by
      intro tc htc
      simp only [llmOnlyGoodToolCalls, List.mem_singleton] at htc
      subst htc
      exact ⟨("No results found for: x"), rfl⟩⟩)

theorem execToolCalls_roles {A : AgentModel} :
    ∀ {l : List ToolCall} {ms : List Message},
      execToolCalls A l = Except.ok ms → ∀ m ∈ ms, m.role = Role.tool := by
  intro l
  induction l with
  | nil =>
    intro ms h m hm
    cases h
    cases hm
  | cons tc rest ih =>
    intro ms h m hm
    rw [execToolCalls] at h
    cases he : executeToolCall A tc with
    | error e => rw [he] at h; cases h
    | ok s =>
      rw [he] at h
      cases hr : execToolCalls A rest with
      | error e => rw [hr] at h; cases h
      | ok ms2 =>
        rw [hr] at h
        cases h
        rcases List.mem_cons.1 hm with rfl | hm2
        · rfl
        · exact ih hr m hm2

theorem buildRequest_getElem_one (msgs : List Message) (hne : msgs ≠ []) :
    (buildRequest true msgs)[1]? = some directiveMessage := by
  cases msgs with
  | nil => exact absurd rfl hne
  | cons m0 rest => simp [buildRequest]

theorem chatLoop_frame (A : AgentModel)
    (llm : List Message → AssistantMessage) (isC : Bool)
    (base : List Message) :
    ∀ (fuel : Nat) (msgs : List Message) (reqs : List (List Message))
      (out : ChatOutcome),
      chatLoop A llm isC fuel msgs reqs = Except.ok out →
      msgs ≠ [] →
      (∀ m ∈ msgs, m ∈ base ∨ m.role = Role.assistant ∨ m.role = Role.tool) →
      (∀ req ∈ reqs, isC = true → req[1]? = some directiveMessage) →
      (∀ m ∈ out.messages,
        m ∈ base ∨ m.role = Role.assistant ∨ m.role = Role.tool) ∧
      (∀ req ∈ out.requests, isC = true → req[1]? = some directiveMessage) := by
  intro fuel
  induction fuel with
  | zero =>
    intro msgs reqs out hok _ hP hQ
    cases hok
    exact ⟨hP, hQ⟩
  | succ fuel ih =>
    intro msgs reqs out hok hne hP hQ
    simp only [chatLoop] at hok
    have htrimne : trimMessages A.maxHist msgs ≠ [] := trim_ne_nil hne
    have hPtrim : ∀ m ∈ trimMessages A.maxHist msgs ++
        [assistantToMessage (llm (buildRequest isC (trimMessages A.maxHist msgs)))],
        m ∈ base ∨ m.role = Role.assistant ∨ m.role = Role.tool := by
      intro m hm
      rcases List.mem_append.1 hm with hm1 | hm2
      · exact hP m (trim_sub m hm1)
      · rcases List.mem_singleton.1 hm2 with rfl
        exact Or.inr (Or.inl rfl)
    have hQnew : ∀ req ∈ reqs ++ [buildRequest isC (trimMessages A.maxHist msgs)],
        isC = true → req[1]? = some directiveMessage := by
      intro req hreq hisC
      rcases List.mem_append.1 hreq with hr1 | hr2
      · exact hQ req hr1 hisC
      · rcases List.mem_singleton.1 hr2 with rfl
        subst hisC
        exact buildRequest_getElem_one _ htrimne
    by_cases hEmpty :
        (llm (buildRequest isC (trimMessages A.maxHist msgs))).tool_calls.isEmpty = true
    · rw [if_pos hEmpty] at hok
      cases hc : (llm (buildRequest isC (trimMessages A.maxHist msgs))).content with
      | some c =>
        simp only [hc] at hok
        by_cases hcs : c = ""
        · rw [if_pos hcs] at hok
          exact ih _ _ out hok (by simp) hPtrim hQnew
        · rw [if_neg hcs] at hok
          cases hok
          exact ⟨hPtrim, hQnew⟩
      | none =>
        simp only [hc] at hok
        exact ih _ _ out hok (by simp) hPtrim hQnew
    · rw [if_neg hEmpty] at hok
      cases htms : execToolCalls A
          (llm (buildRequest isC (trimMessages A.maxHist msgs))).tool_calls with
      | error e => rw [htms] at hok; cases hok
      | ok tms =>
        rw [htms] at hok
        refine ih _ _ out hok (by simp) ?_ hQnew
        intro m hm
        rcases List.mem_append.1 hm with hm1 | hm2
        · exact hPtrim m hm1
        · exact Or.inr (Or.inr (execToolCalls_roles htms m hm2))

/-- Claim C5: a completed `chat` call appends to the stored transcript
only the raw user message, assistant messages and tool-result messages;
on a complex query the transient directive appears at position 1 of every
outgoing request, and it is never an element of the stored transcript
afterwards (given it was not planted there beforehand). -/
theorem eu5_c5 (A : AgentModel) (llm : List Message → AssistantMessage)
    (msgs0 : List Message) (u : String) (out : ChatOutcome)
    (hok : chat A llm msgs0 u = Except.ok out)
    (hnotin : directiveMessage ∉ msgs0) :
    (isComplexQuery u = true →
      ∀ req ∈ out.requests, req[1]? = some directiveMessage) ∧
    directiveMessage ∉ out.messages ∧
    (∀ m ∈ out.messages, m ∈ msgs0 ∨ m = userMessage u ∨
      m.role = Role.assistant ∨ m.role = Role.tool) := by
  simp only [chat] at hok
  obtain ⟨hP, hQ⟩ := chatLoop_frame A llm (isComplexQuery u)
    (msgs0 ++ [userMessage u]) maxIterations (msgs0 ++ [userMessage u]) [] out
    hok (by simp) (fun m hm => Or.inl hm) (by intro req hreq; cases hreq)
  have hP' : ∀ m ∈ out.messages, m ∈ msgs0 ∨ m = userMessage u ∨
      m.role = Role.assistant ∨ m.role = Role.tool := by
    intro m hm
    rcases hP m hm with hmem | hrole
    · rcases List.mem_append.1 hmem with h1 | h2
      · exact Or.inl h1
      · exact Or.inr (Or.inl (List.mem_singleton.1 h2))
    · exact Or.inr (Or.inr hrole)
  refine ⟨fun hisC req hreq => hQ req hreq hisC, ?_, hP'⟩
  intro hmem
  rcases hP' directiveMessage hmem with h1 | h2 | h3 | h4
  · exact hnotin h1
  · have := congrArg Message.role h2
    simp [directiveMessage, userMessage] at this
  · simp [directiveMessage] at h3
  · simp [directiveMessage] at h4

/-- Witness for C5 on a concrete complex query answered immediately. -/
theorem eu5_c5_witness :
    (isComplexQuery ("plan a campaign") = true →
      ∀ req ∈ ((chat agentA llmPlainText [mSystem]
          ("plan a campaign")).toOption.getD default).requests,
        req[1]? = some directiveMessage) ∧
    directiveMessage ∉ ((chat agentA llmPlainText [mSystem]
        ("plan a campaign")).toOption.getD default).messages ∧
    (∀ m ∈ ((chat agentA llmPlainText [mSystem]
        ("plan a campaign")).toOption.getD default).messages,
      m ∈ [mSystem] ∨ m = userMessage ("plan a campaign") ∨
        m.role = Role.assistant ∨ m.role = Role.tool) :=
  eu5_c5 agentA llmPlainText [mSystem] ("plan a campaign")
    ((chat agentA llmPlainText [mSystem] ("plan a campaign")).toOption.getD default)
    rfl
    (by
      intro hmem
      rcases List.mem_singleton.1 hmem with heq
      have := congrArg Message.content heq
      simp only [directiveMessage, mSystem, Option.some.injEq] at this
      exact absurd this (by decide))

end EU5
